import Mathlib

/-!
Verification of the tic-tac-toe engine and its learning agents
(`src/tic_tac_toe/core.py`, `src/tic_tac_toe/menace.py`).

The Python classes are embedded shallowly:

* the 3×3 numpy board (`self.board`, values 0 / 1 / 2) becomes
  `Board := Fin 3 → Fin 3 → ℕ`;
* the mutable `TicTacToe` engine state (`board`, `current_player`,
  `winner`, `finished`) becomes the structure `Game`, and each mutating
  method becomes a function `Game → ... → Game × result`;
* Python `float` rewards (only ever 0.0, 0.5, 1.0 in this program) are
  modelled as exact rationals `ℚ`;
* code that can raise an exception is modelled with `Option`
  (`none` = the call raises).
-/

/-- A 3×3 board, row-major; cell values are 0 (empty), 1, 2,
mirroring `np.zeros((3, 3), dtype=int)` written only by `make_move`. -/
def Board : Type := Fin 3 → Fin 3 → ℕ

instance : DecidableEq Board := by unfold Board; infer_instance

/-- State of a `TicTacToe` object: fields `board`, `current_player`,
`winner`, `finished` of `core.py`. -/
structure Game where
  board : Board
  current_player : ℕ
  winner : Option ℕ
  finished : Bool
deriving DecidableEq

/-- `TicTacToe.reset` / the freshly constructed engine: empty board,
player 1 to move, no winner, not finished. -/
def initialGame : Game :=
  { board := fun _ _ => 0, current_player := 1, winner := none, finished := false }

/-- Assignment `self.board[move[0], move[1]] = value` for in-grid indices. -/
def place (b : Board) (i j : Fin 3) (v : ℕ) : Board :=
  fun x y => if x = i ∧ y = j then v else b x y

/-- `TicTacToe.get_valid_moves`: indices of empty cells, row-major
(`zip(*np.where(self.board == 0))` yields row-major order). -/
def get_valid_moves (b : Board) : List (Fin 3 × Fin 3) :=
  (List.finRange 3).flatMap fun i =>
    (List.finRange 3).filterMap fun j => if b i j = 0 then some (i, j) else none

/-- `TicTacToe.is_valid_move` for an in-grid move: the cell is empty. -/
def is_valid_move (g : Game) (m : Fin 3 × Fin 3) : Bool :=
  g.board m.1 m.2 == 0

/-- Row `i` fully occupied by `p`: `np.all(self.board[i, :] == player)`. -/
def row_all (b : Board) (i : Fin 3) (p : ℕ) : Bool :=
  (b i 0 == p) && (b i 1 == p) && (b i 2 == p)

/-- Column `i` fully occupied by `p`: `np.all(self.board[:, i] == player)`. -/
def col_all (b : Board) (i : Fin 3) (p : ℕ) : Bool :=
  (b 0 i == p) && (b 1 i == p) && (b 2 i == p)

/-- Main diagonal occupied by `p`: `np.all(np.diag(self.board) == player)`. -/
def diag_all (b : Board) (p : ℕ) : Bool :=
  (b 0 0 == p) && (b 1 1 == p) && (b 2 2 == p)

/-- Anti-diagonal occupied by `p`:
`np.all(np.diag(np.fliplr(self.board)) == player)`. -/
def anti_diag_all (b : Board) (p : ℕ) : Bool :=
  (b 0 2 == p) && (b 1 1 == p) && (b 2 0 == p)

/-- `TicTacToe.check_winner` with player `p` resolved
(`make_move` calls it with `self.current_player`). -/
def check_winner (b : Board) (p : ℕ) : Bool :=
  ((List.finRange 3).any fun i => row_all b i p || col_all b i p)
    || diag_all b p || anti_diag_all b p

/-- `TicTacToe.make_move` for an in-grid move; returns the updated engine
state together with the boolean result of the Python method. -/
def make_move (g : Game) (m : Fin 3 × Fin 3) : Game × Bool :=
  if !is_valid_move g m || g.finished then (g, false)
  else
    let b := place g.board m.1 m.2 g.current_player
    let g1 :=
      if check_winner b g.current_player then
        { g with board := b, finished := true, winner := some g.current_player }
      else if (get_valid_moves b).isEmpty then
        { g with board := b, finished := true }
      else
        { g with board := b }
    ({ g1 with current_player := 3 - g.current_player }, true)

/-- Number of cells of `b` holding value `p`
(`np.sum(board == p)`, used for the player-to-move rule). -/
def countMarks (b : Board) (p : ℕ) : ℕ :=
  ∑ i : Fin 3, ∑ j : Fin 3, if b i j = p then 1 else 0

/-! ### Integer encoding (`state_to_int` / `int_to_state`) -/

/-- Row-major flattening of a board: `self.board.flatten()`. -/
def flattenB (b : Board) : List ℕ :=
  (List.finRange 3).flatMap fun i => (List.finRange 3).map fun j => b i j

/-- `TicTacToe.state_to_int`: the flattened cells, written as a digit
string, read as a base-3 number (`int("".join(...), 3)`; cells are
always in 0..2 where this is called, so each cell is one digit). -/
def state_to_int (b : Board) : ℕ :=
  (flattenB b).foldl (fun acc d => acc * 3 + d) 0

/-- The 9 characters of `np.base_repr(m, base=3).zfill(9)` for `m < 3^9`:
base-3 digits of `m`, most significant first
(6561 = 3^8, 2187 = 3^7, ..., 9 = 3^2). -/
def base3digits (m : ℕ) : List ℕ :=
  [m / 6561 % 3, m / 2187 % 3, m / 729 % 3, m / 243 % 3,
   m / 81 % 3, m / 27 % 3, m / 9 % 3, m / 3 % 3, m % 3]

/-- Length of `np.base_repr(m, base=3).zfill(9)`:
`base_repr` of 0 is `"0"`, otherwise it has `log₃ m + 1` digits, and
`zfill(9)` pads to at least 9 characters. -/
def zfillLen (m : ℕ) : ℕ :=
  max 9 (if m = 0 then 1 else Nat.log 3 m + 1)

/-- `np.array(digits).reshape(3, 3)`: row-major reshaping of the digit
list into a board. -/
def boardOfDigits (ds : List ℕ) : Board :=
  fun i j => ds.getD (3 * i.val + j.val) 0

/-- `TicTacToe.int_to_state`. A negative argument makes
`np.base_repr` emit a sign character that the `dtype=int` conversion
rejects (`ValueError`), and an argument with more than 9 base-3 digits
makes `reshape(3, 3)` fail (`ValueError`); both raising paths are
`none`.  Otherwise the digits become the board, and the player to move
is 1 when player 1 has at most as many marks as player 2
(`1 if np.sum(board == 1) <= np.sum(board == 2) else 2`). -/
def int_to_state (n : ℤ) : Option (Board × ℕ) :=
  if n < 0 then none
  else if zfillLen n.toNat ≠ 9 then none
  else
    let b := boardOfDigits (base3digits n.toNat)
    some (b, if countMarks b 1 ≤ countMarks b 2 then 1 else 2)

/-! ### Helper lemmas for the integer encoding -/

theorem zfillLen_eq_nine (m : ℕ) : zfillLen m = 9 ↔ m < 3 ^ 9 := by
  unfold zfillLen
  rcases eq_or_ne m 0 with h | h
  · subst h; norm_num
  · rw [if_neg h]
    have hlog : m < 3 ^ 9 ↔ Nat.log 3 m < 9 := Nat.lt_pow_iff_log_lt (by norm_num) h
    rw [hlog]
    omega

theorem int_to_state_eq (n : ℕ) (h : n < 3 ^ 9) :
    int_to_state (n : ℤ) =
      some (boardOfDigits (base3digits n),
        if countMarks (boardOfDigits (base3digits n)) 1
            ≤ countMarks (boardOfDigits (base3digits n)) 2 then 1 else 2) := by
  have h0 : ¬ ((n : ℤ) < 0) := by omega
  have h9 : zfillLen n = 9 := (zfillLen_eq_nine n).mpr h
  unfold int_to_state
  rw [if_neg h0, Int.toNat_natCast, if_neg (fun hc => hc h9)]

theorem state_to_int_boardOfDigits (n : ℕ) (h : n < 19683) :
    state_to_int (boardOfDigits (base3digits n)) = n := by
  show ((((((((0 * 3 + n / 6561 % 3) * 3 + n / 2187 % 3) * 3 + n / 729 % 3) * 3
      + n / 243 % 3) * 3 + n / 81 % 3) * 3 + n / 27 % 3) * 3 + n / 9 % 3) * 3
      + n / 3 % 3) * 3 + n % 3 = n
  omega

/-- C1: for every integer `n` in `[0, 3^9)`, decoding `n` with
`int_to_state` and re-encoding the resulting board with `state_to_int`
yields `n` again; this covers all 19683 encodable integers, including
boards not reachable by legal play. -/
theorem claim_encode_decode_inverse (n : ℕ) (h : n < 3 ^ 9) :
    Option.map (fun s => state_to_int s.1) (int_to_state (n : ℤ)) = some n := by
  have h19 : n < 19683 := by norm_num at h; exact h
  rw [int_to_state_eq n h]
  show some (state_to_int (boardOfDigits (base3digits n))) = some n
  rw [state_to_int_boardOfDigits n h19]

/-- C1 witness at `n = 6724` (the test vector `int("100020001", 3)`). -/
theorem claim_encode_decode_inverse_witness :
    Option.map (fun s => state_to_int s.1) (int_to_state ((6724 : ℕ) : ℤ))
      = some 6724 :=
  claim_encode_decode_inverse 6724 (by norm_num)

/-- C5: `int_to_state` fails (raises) exactly when its argument is
outside `[0, 3^9)`, and succeeds — returning a board plus a player to
move — for every argument inside that range. -/
theorem claim_int_to_state_range (n : ℤ) :
    (int_to_state n = none ↔ n < 0 ∨ 3 ^ 9 ≤ n) ∧
    ((int_to_state n).isSome ↔ 0 ≤ n ∧ n < 3 ^ 9) := by
  have hp : (3 : ℤ) ^ 9 = 19683 := by norm_num
  by_cases hn : n < 0
  · unfold int_to_state
    rw [if_pos hn]
    rw [hp]
    constructor
    · constructor
      · intro _; exact Or.inl hn
      · intro _; rfl
    · simp only [Option.isSome_none, Bool.false_eq_true, false_iff]
      omega
  · have h9 := zfillLen_eq_nine n.toNat
    unfold int_to_state
    rw [if_neg hn, hp]
    by_cases hz : zfillLen n.toNat = 9
    · have hlt : n.toNat < 3 ^ 9 := h9.mp hz
      have hn19 : n.toNat < 19683 := by norm_num at hlt; exact hlt
      rw [if_neg (fun hc => hc hz)]
      constructor
      · constructor
        · intro hc; exact absurd hc (by simp)
        · intro hc; exact absurd hc (by omega)
      · simp only [Option.isSome_some, true_iff]
        omega
    · have hge : ¬ n.toNat < 19683 := by
        intro hc
        exact hz (h9.mpr (by norm_num; exact hc))
      rw [if_pos hz]
      constructor
      · constructor
        · intro _; omega
        · intro _; rfl
      · simp only [Option.isSome_none, Bool.false_eq_true, false_iff]
        omega

/-! ### Helper lemmas for `make_move` -/

set_option linter.unnecessarySeqFocus false

theorem make_move_accept_eq (g : Game) (m : Fin 3 × Fin 3)
    (hcell : g.board m.1 m.2 = 0) (hfin : g.finished = false) :
    make_move g m =
      ({ board := place g.board m.1 m.2 g.current_player
         current_player := 3 - g.current_player
         winner :=
           if check_winner (place g.board m.1 m.2 g.current_player) g.current_player
           then some g.current_player else g.winner
         finished :=
           if check_winner (place g.board m.1 m.2 g.current_player) g.current_player
           then true
           else if (get_valid_moves (place g.board m.1 m.2 g.current_player)).isEmpty
           then true else g.finished }, true) := by
  have hg : (!is_valid_move g m || g.finished) = false := by
    simp [is_valid_move, hcell, hfin]
  unfold make_move
  rw [hg]
  simp only [Bool.false_eq_true, if_false]
  by_cases hw : check_winner (place g.board m.1 m.2 g.current_player) g.current_player = true
  · simp [hw]
  · by_cases he : (get_valid_moves (place g.board m.1 m.2 g.current_player)).isEmpty = true
    · simp [hw, he]
    · simp [hw, he]

theorem make_move_true_inv (g g2 : Game) (m : Fin 3 × Fin 3)
    (h : make_move g m = (g2, true)) :
    g.board m.1 m.2 = 0 ∧ g.finished = false
    ∧ g2.board = place g.board m.1 m.2 g.current_player
    ∧ g2.current_player = 3 - g.current_player := by
  unfold make_move at h
  by_cases hg : (!is_valid_move g m || g.finished) = true
  · rw [if_pos hg] at h
    simp at h
  · rw [Bool.not_eq_true] at hg
    have hv : is_valid_move g m = true := by
      cases hvm : is_valid_move g m <;> simp [hvm] at hg <;> simp
    have hf : g.finished = false := by
      cases hfin : g.finished <;> simp [hfin] at hg <;> simp
    have hcell : g.board m.1 m.2 = 0 := by
      simpa [is_valid_move] using hv
    rw [if_neg (by simp [hg])] at h
    refine ⟨hcell, hf, ?_, ?_⟩ <;>
      · have := congrArg Prod.fst h
        simp at this
        split at this <;> [skip; split at this] <;> simp [← this]

/-- A finished engine state used as a concrete input below. -/
def finishedGame : Game :=
  { board := fun _ _ => 0, current_player := 1, winner := none, finished := true }

/-- C2: for an in-grid move, `make_move` returns `false` and leaves the
whole engine state (board, current player, winner, finished flag)
unchanged whenever the targeted cell is non-empty or the game is
already finished. -/
theorem claim_make_move_rejected_noop (g : Game) (m : Fin 3 × Fin 3)
    (h : g.board m.1 m.2 ≠ 0 ∨ g.finished = true) :
    make_move g m = (g, false) := by
  have hg : (!is_valid_move g m || g.finished) = true := by
    rcases h with h | h
    · simp [is_valid_move, h]
    · simp [h]
  unfold make_move
  rw [if_pos hg]

/-- C2 witness: moving on a finished game is rejected without mutation. -/
theorem claim_make_move_rejected_noop_witness :
    make_move finishedGame (0, 0) = (finishedGame, false) :=
  claim_make_move_rejected_noop finishedGame (0, 0) (Or.inr rfl)

/-- C3: an accepted move (empty in-grid cell, game not finished) places
the current mover's mark; if the mover then has a completed line the
game finishes with the mover as winner; else if no empty cell remains
the game finishes with no winner; else the game stays in progress; and
in every accepted case the current player switches 1 ↔ 2, including on
the terminal move. -/
theorem claim_make_move_accept_effects (g : Game) (m : Fin 3 × Fin 3)
    (hcell : g.board m.1 m.2 = 0) (hfin : g.finished = false)
    (hwin : g.winner = none) :
    (make_move g m).2 = true
    ∧ (make_move g m).1.board = place g.board m.1 m.2 g.current_player
    ∧ (check_winner (place g.board m.1 m.2 g.current_player) g.current_player = true →
        (make_move g m).1.finished = true
        ∧ (make_move g m).1.winner = some g.current_player)
    ∧ (check_winner (place g.board m.1 m.2 g.current_player) g.current_player = false →
        (get_valid_moves (place g.board m.1 m.2 g.current_player)).isEmpty = true →
        (make_move g m).1.finished = true ∧ (make_move g m).1.winner = none)
    ∧ (check_winner (place g.board m.1 m.2 g.current_player) g.current_player = false →
        (get_valid_moves (place g.board m.1 m.2 g.current_player)).isEmpty = false →
        (make_move g m).1.finished = false ∧ (make_move g m).1.winner = none)
    ∧ (g.current_player = 1 → (make_move g m).1.current_player = 2)
    ∧ (g.current_player = 2 → (make_move g m).1.current_player = 1) := by
  rw [make_move_accept_eq g m hcell hfin]
  refine ⟨rfl, rfl, ?_, ?_, ?_, ?_, ?_⟩
  · intro hw; simp [hw]
  · intro hw he; simp [hw, he, hwin, hfin]
  · intro hw he; simp [hw, he, hwin, hfin]
  · intro h1; simp [h1]
  · intro h2; simp [h2]

/-- C3 witness: the first move of a fresh game at cell (0,0) is
accepted, switches the mover to player 2, and leaves the game in
progress. -/
theorem claim_make_move_accept_effects_witness :
    (make_move initialGame (0, 0)).2 = true
    ∧ (make_move initialGame (0, 0)).1.current_player = 2
    ∧ (make_move initialGame (0, 0)).1.finished = false
    ∧ (make_move initialGame (0, 0)).1.winner = none := by
  have h := claim_make_move_accept_effects initialGame (0, 0) rfl rfl rfl
  have hprog := h.2.2.2.2.1 (by decide) (by decide)
  exact ⟨h.1, h.2.2.2.2.2.1 rfl, hprog.1, hprog.2⟩

/-! ### Numpy indexing semantics (moves outside the grid) -/

/-- Resolution of a Python integer index into a numpy axis of length 3:
values in `[0, 3)` index directly, values in `[-3, 0)` wrap from the
end, anything else raises `IndexError` (modelled as `none`). -/
def npIdx (i : ℤ) : Option (Fin 3) :=
  if h : 0 ≤ i ∧ i < 3 then some ⟨i.toNat, by omega⟩
  else if h2 : -3 ≤ i ∧ i < 0 then some ⟨(i + 3).toNat, by omega⟩
  else none

/-- `TicTacToe.is_valid_move` on an arbitrary integer pair, with the
numpy indexing of `self.board[move[0], move[1]]`; `none` models an
`IndexError` escaping the method. -/
def is_valid_move_np (g : Game) (m : ℤ × ℤ) : Option Bool :=
  match npIdx m.1, npIdx m.2 with
  | some i, some j => some (is_valid_move g (i, j))
  | _, _ => none

/-- `TicTacToe.make_move` on an arbitrary integer pair: the method
first indexes the board inside `is_valid_move` (raising `IndexError`
when an index cannot be resolved) and afterwards only writes the board
at the same indices, so on resolvable indices it behaves as
`make_move` at the resolved cell. -/
def make_move_np (g : Game) (m : ℤ × ℤ) : Option (Game × Bool) :=
  match npIdx m.1, npIdx m.2 with
  | some i, some j => some (make_move g (i, j))
  | _, _ => none

/-- C4 counterexample: on a fresh board, validating or making the
out-of-grid move `(3, 0)` raises `IndexError` instead of returning
`false`, and the out-of-grid move `(-1, -1)` is reported as valid
because numpy wraps negative indices; so neither "never throws" nor
"true exactly for in-grid empty cells" holds as stated. -/
theorem claim_never_throws_counterexample :
    is_valid_move_np initialGame (3, 0) = none
    ∧ make_move_np initialGame (3, 0) = none
    ∧ is_valid_move_np initialGame (-1, -1) = some true := by
  refine ⟨rfl, rfl, rfl⟩

/-- Rejection branch of `make_move`: an occupied target cell or a
finished game returns `(unchanged state, false)`. -/
theorem make_move_reject_eq (g : Game) (m : Fin 3 × Fin 3)
    (h : g.board m.1 m.2 ≠ 0 ∨ g.finished = true) :
    make_move g m = (g, false) := by
  have hg : (!is_valid_move g m || g.finished) = true := by
    rcases h with h | h
    · simp [is_valid_move, h]
    · simp [h]
  unfold make_move
  rw [if_pos hg]

/-- C4 amended: restricted to in-grid positions, `is_valid_move` and
`make_move` do not raise, `is_valid_move` returns true exactly when
the targeted cell is empty, and `make_move` reports an illegal
(occupied) cell via a `false` return rather than an exception. -/
theorem claim_in_grid_no_throw (g : Game) (p : Fin 3 × Fin 3) :
    is_valid_move_np g ((p.1.val : ℤ), (p.2.val : ℤ)) = some (is_valid_move g p)
    ∧ make_move_np g ((p.1.val : ℤ), (p.2.val : ℤ)) = some (make_move g p)
    ∧ (is_valid_move g p = true ↔ g.board p.1 p.2 = 0)
    ∧ (is_valid_move g p = false → make_move g p = (g, false)) := by
  have hn : ∀ k : Fin 3, npIdx (k.val : ℤ) = some k := by decide
  refine ⟨?_, ?_, ?_, ?_⟩
  · simp [is_valid_move_np, hn]
  · simp [make_move_np, hn]
  · simp [is_valid_move]
  · intro hf
    refine make_move_reject_eq g p (Or.inl ?_)
    simpa [is_valid_move] using hf

/-- An in-progress engine state whose top-left cell is occupied. -/
def occupiedGame : Game :=
  { board := fun x y => if x = 0 ∧ y = 0 then 1 else 0
    current_player := 2
    winner := none
    finished := false }

/-- C4 amended witness: at the occupied in-grid cell (0,0) the move is
reported invalid and `make_move` returns `false` without raising. -/
theorem claim_in_grid_no_throw_witness :
    make_move occupiedGame (0, 0) = (occupiedGame, false)
    ∧ is_valid_move_np occupiedGame (0, 0) = some false :=
  ⟨(claim_in_grid_no_throw occupiedGame (0, 0)).2.2.2 rfl,
   (claim_in_grid_no_throw occupiedGame (0, 0)).1⟩

/-! ### Reachable states and the mark-balance invariant -/

/-- Engine states reachable from a reset engine (`TicTacToe.reset`)
by a sequence of accepted `make_move` calls. -/
inductive Reachable : Game → Prop
  | init : Reachable initialGame
  | step (g g2 : Game) (m : Fin 3 × Fin 3) :
      Reachable g → make_move g m = (g2, true) → Reachable g2

theorem countMarks_place (b : Board) (i j : Fin 3) (p q : ℕ)
    (hcell : b i j = 0) (hq : q ≠ 0) :
    countMarks (place b i j p) q = countMarks b q + (if p = q then 1 else 0) := by
  classical
  have key : ∀ c : Board,
      countMarks c q = ∑ z : Fin 3 × Fin 3, if c z.1 z.2 = q then 1 else 0 := by
    intro c
    rw [Fintype.sum_prod_type]
    rfl
  rw [key, key]
  rw [← Finset.add_sum_erase Finset.univ
        (fun z : Fin 3 × Fin 3 => if place b i j p z.1 z.2 = q then 1 else 0)
        (Finset.mem_univ (i, j)),
      ← Finset.add_sum_erase Finset.univ
        (fun z : Fin 3 × Fin 3 => if b z.1 z.2 = q then 1 else 0)
        (Finset.mem_univ (i, j))]
  have hsame :
      (∑ z ∈ Finset.univ.erase (i, j),
          if place b i j p z.1 z.2 = q then 1 else 0)
        = ∑ z ∈ Finset.univ.erase (i, j), if b z.1 z.2 = q then 1 else 0 := by
    refine Finset.sum_congr rfl ?_
    intro z hz
    have hne : z ≠ (i, j) := (Finset.mem_erase.mp hz).1
    have hzz : place b i j p z.1 z.2 = b z.1 z.2 := by
      unfold place
      rw [if_neg]
      intro hc
      apply hne
      cases z
      simp_all
    rw [hzz]
  rw [hsame]
  unfold place
  simp only [and_self, if_true, if_pos rfl]
  rw [hcell]
  simp only [if_neg (Ne.symm hq)]
  split_ifs <;> omega

/-- Reachable states satisfy the tighter turn/count invariant: player
1 is to move exactly when the two mark counts are equal, player 2
exactly when player 1 is one mark ahead. -/
theorem reachable_turn_count (g : Game) (h : Reachable g) :
    (g.current_player = 1 ∧ countMarks g.board 1 = countMarks g.board 2)
      ∨ (g.current_player = 2
          ∧ countMarks g.board 1 = countMarks g.board 2 + 1) := by
  induction h with
  | init =>
      left
      exact ⟨rfl, by decide⟩
  | step g g2 m hr hmm ih =>
      obtain ⟨hcell, _, hboard, hcp⟩ := make_move_true_inv g g2 m hmm
      rcases ih with ⟨h1, he⟩ | ⟨h2, he⟩
      · right
        constructor
        · rw [hcp, h1]
        · rw [hboard, h1,
              countMarks_place g.board m.1 m.2 1 1 hcell one_ne_zero,
              countMarks_place g.board m.1 m.2 1 2 hcell two_ne_zero]
          simp [he]
      · left
        constructor
        · rw [hcp, h2]
        · rw [hboard, h2,
              countMarks_place g.board m.1 m.2 2 1 hcell one_ne_zero,
              countMarks_place g.board m.1 m.2 2 2 hcell two_ne_zero]
          simp
          omega

/-- C6: after any sequence of accepted moves from a reset engine, the
number of player-1 marks minus the number of player-2 marks is 0 or 1. -/
theorem claim_mark_balance (g : Game) (h : Reachable g) :
    countMarks g.board 1 = countMarks g.board 2
      ∨ countMarks g.board 1 = countMarks g.board 2 + 1 := by
  rcases reachable_turn_count g h with ⟨_, he⟩ | ⟨_, he⟩
  exacts [Or.inl he, Or.inr he]

/-- C6 witness: the state reached by playing (0,0) from a fresh game. -/
theorem claim_mark_balance_witness :
    countMarks (make_move initialGame (0, 0)).1.board 1
        = countMarks (make_move initialGame (0, 0)).1.board 2
      ∨ countMarks (make_move initialGame (0, 0)).1.board 1
        = countMarks (make_move initialGame (0, 0)).1.board 2 + 1 :=
  claim_mark_balance (make_move initialGame (0, 0)).1
    (Reachable.step initialGame (make_move initialGame (0, 0)).1 (0, 0)
      Reachable.init (by decide))

/-! ### MENACE bead adjustment (`MENACE.end_game` in `menace.py`) -/

/-- `add_beads = 3 if reward == 1 else -1 if reward == 0 else 1`. -/
def add_beads (reward : ℚ) : ℤ :=
  if reward = 1 then 3 else if reward = 0 then -1 else 1

/-- Python `Counter` union with `{move: 1 for move in moves}`: the
pointwise maximum with weight 1 on `moves`.  In `MENACE.end_game` this
value is computed and immediately discarded. -/
def counter_union {α : Type} [DecidableEq α] (c : α → ℤ) (moves : List α) : α → ℤ :=
  fun a => if a ∈ moves then max (c a) 1 else c a

/-- One iteration of the `for state, action in self.action_buffer.items()`
loop of `MENACE.end_game`: add `add_beads` to the chosen action's
weight, clamp at 0, and — when `infinite_exploration` is set — compute
the Counter union with weight-1 beads for the currently legal moves.
The source spells that last step `matchbox | {...}` (not `|=`), so the
union's result is discarded and the matchbox is left as clamped. -/
def menace_adjust {σ α : Type} [DecidableEq σ] [DecidableEq α]
    (ie : Bool) (valid_moves : List α) (reward : ℚ)
    (boxes : σ → α → ℤ) (sa : σ × α) : σ → α → ℤ :=
  let w := boxes sa.1 sa.2 + add_beads reward
  let w2 := if w < 0 then 0 else w
  let boxes2 := fun s a => if s = sa.1 ∧ a = sa.2 then w2 else boxes s a
  let _discarded := if ie then counter_union (boxes2 sa.1) valid_moves else boxes2 sa.1
  boxes2

/-- The matchbox update of `MENACE.end_game(reward)`: the adjustment
loop over the episode's (state, action) buffer.  (The method's
`super().end_game(reward)` call updates the disjoint Monte-Carlo value
table, modelled separately as `player_end_game` below.) -/
def menace_end_game {σ α : Type} [DecidableEq σ] [DecidableEq α]
    (ie : Bool) (valid_moves : List α) (reward : ℚ)
    (buffer : List (σ × α)) (boxes : σ → α → ℤ) : σ → α → ℤ :=
  buffer.foldl (menace_adjust ie valid_moves reward) boxes

theorem menace_end_game_not_visited {σ α : Type} [DecidableEq σ] [DecidableEq α]
    (ie : Bool) (vm : List α) (reward : ℚ) (buffer : List (σ × α))
    (boxes : σ → α → ℤ) (s : σ) (a : α)
    (h : s ∉ buffer.map Prod.fst) :
    menace_end_game ie vm reward buffer boxes s a = boxes s a := by
  induction buffer generalizing boxes with
  | nil => rfl
  | cons hd tl ih =>
      have hs : s ≠ hd.1 := by
        intro hc
        exact h (by simp [hc])
      have htl : s ∉ tl.map Prod.fst := fun hc => h (by simp [hc])
      show menace_end_game ie vm reward tl (menace_adjust ie vm reward boxes hd) s a
        = boxes s a
      rw [ih _ htl]
      simp [menace_adjust, hs]

theorem menace_end_game_visited {σ α : Type} [DecidableEq σ] [DecidableEq α]
    (ie : Bool) (vm : List α) (reward : ℚ)
    (buffer : List (σ × α)) (s : σ) (a : α) :
    ∀ boxes : σ → α → ℤ,
      (buffer.map Prod.fst).Nodup → (s, a) ∈ buffer →
      menace_end_game ie vm reward buffer boxes s a
        = max 0 (boxes s a + add_beads reward) := by
  induction buffer with
  | nil => intro boxes _ hmem; cases hmem
  | cons hd tl ih =>
      intro boxes hnd hmem
      have hhd1 : hd.1 ∉ tl.map Prod.fst := by
        simp only [List.map_cons, List.nodup_cons] at hnd
        exact hnd.1
      have hnd2 : (tl.map Prod.fst).Nodup := by
        simp only [List.map_cons, List.nodup_cons] at hnd
        exact hnd.2
      show menace_end_game ie vm reward tl (menace_adjust ie vm reward boxes hd) s a
        = _
      rcases List.mem_cons.mp hmem with heq | hmemtl
      · have hhd : hd = (s, a) := heq.symm
        subst hhd
        have hs : s ∉ tl.map Prod.fst := hhd1
        rw [menace_end_game_not_visited _ _ _ _ _ _ _ hs]
        simp only [menace_adjust, and_self, if_true, if_pos rfl]
        omega
      · have hs : s ≠ hd.1 := by
          intro hc
          exact hhd1 (hc ▸ List.mem_map.mpr ⟨(s, a), hmemtl, rfl⟩)
        rw [ih _ hnd2 hmemtl]
        simp [menace_adjust, hs]

/-- C7: `MENACE.end_game(reward)` changes the weight of each (state,
action) pair of the episode's action buffer by +3 on a win (reward 1),
-1 on a loss (reward 0), +1 otherwise (draw), clamped at a minimum of
0, so no adjusted weight is ever negative. -/
theorem claim_menace_bead_update {σ α : Type} [DecidableEq σ] [DecidableEq α]
    (ie : Bool) (vm : List α) (reward : ℚ)
    (buffer : List (σ × α)) (boxes : σ → α → ℤ) (s : σ) (a : α)
    (hnd : (buffer.map Prod.fst).Nodup) (hmem : (s, a) ∈ buffer) :
    menace_end_game ie vm reward buffer boxes s a
      = max 0 (boxes s a
          + (if reward = 1 then 3 else if reward = 0 then -1 else 1))
    ∧ 0 ≤ menace_end_game ie vm reward buffer boxes s a := by
  have key := menace_end_game_visited ie vm reward buffer s a boxes hnd hmem
  refine ⟨?_, ?_⟩
  · rw [key]; rfl
  · rw [key]; omega

/-- C7 witness: a loss (reward 0) on a single recorded pair with prior
weight 2 leaves weight `max 0 (2 - 1) = 1 ≥ 0`. -/
theorem claim_menace_bead_update_witness :
    menace_end_game false [] (0 : ℚ) [((0 : ℕ), (1 : ℕ))] (fun _ _ => 2) 0 1 = 1
    ∧ 0 ≤ menace_end_game false [] (0 : ℚ) [((0 : ℕ), (1 : ℕ))] (fun _ _ => 2) 0 1 := by
  have h := claim_menace_bead_update false [] (0 : ℚ) [((0 : ℕ), (1 : ℕ))]
    (fun _ _ => 2) 0 1 (by decide) (by decide)
  refine ⟨?_, h.2⟩
  rw [h.1]
  norm_num

/-- C8, executed at a concrete failing input: with
`infinite_exploration` set, a loss (reward 0) drops the weight of the
visited action 0 of state 0 from 1 to 0 even though action 0 is in the
current legal-move list `[0, 1]`; the Counter union computed on that
line of the source is discarded (`matchbox | {...}`, not
`matchbox |= {...}`), so no weight floor of 1 is applied. -/
theorem claim_infinite_exploration_failing :
    menace_end_game true [0, 1] (0 : ℚ) [((0 : ℕ), (0 : ℕ))] (fun _ _ => 1) 0 0 = 0
    ∧ (0 : ℕ) ∈ [0, 1] := by
  refine ⟨?_, by decide⟩
  show menace_adjust true [0, 1] (0 : ℚ) (fun _ _ => 1) ((0 : ℕ), (0 : ℕ)) 0 0 = 0
  norm_num [menace_adjust, add_beads]

/-! ### Monte-Carlo value update (`Player.end_game` in `core.py`) -/

/-- One iteration of the `for state in self.state_buffer` loop of
`Player.end_game`: `state_counts[s] += 1` followed by
`state_values[s] += (reward - state_values[s]) / state_counts[s]`;
`defaultdict` entries start at 0. -/
def mc_step {σ : Type} [DecidableEq σ] (reward : ℚ)
    (cv : (σ → ℕ) × (σ → ℚ)) (s0 : σ) : (σ → ℕ) × (σ → ℚ) :=
  let counts := fun t => if t = s0 then cv.1 s0 + 1 else cv.1 t
  let values := fun t =>
    if t = s0 then cv.2 s0 + (reward - cv.2 s0) / (counts s0 : ℚ) else cv.2 t
  (counts, values)

/-- `Player.end_game(reward)`: the update loop over the episode's
state buffer, acting on `(state_counts, state_values)`. -/
def player_end_game {σ : Type} [DecidableEq σ] (reward : ℚ) (buffer : List σ)
    (cv : (σ → ℕ) × (σ → ℚ)) : (σ → ℕ) × (σ → ℚ) :=
  buffer.foldl (mc_step reward) cv

/-- A sequence of episodes, each a buffer of visited states with the
episode's terminal reward, fed to `Player.end_game` in order. -/
def run_episodes {σ : Type} [DecidableEq σ] (eps : List (List σ × ℚ))
    (cv : (σ → ℕ) × (σ → ℚ)) : (σ → ℕ) × (σ → ℚ) :=
  eps.foldl (fun acc e => player_end_game e.2 e.1 acc) cv

/-- The rewards recorded for state `s` over a sequence of episodes:
one copy of an episode's reward per occurrence of `s` in its buffer. -/
def recordedRewards {σ : Type} [DecidableEq σ] (s : σ)
    (eps : List (List σ × ℚ)) : List ℚ :=
  eps.flatMap fun e => List.replicate (e.1.count s) e.2

/-- The counts/values tables agree with a per-state reward history:
each count is the history length and each value its arithmetic mean
(`[]` has mean `0/0 = 0`, matching the `defaultdict(float)` default). -/
def tracksHistory {σ : Type} [DecidableEq σ]
    (cv : (σ → ℕ) × (σ → ℚ)) (hist : σ → List ℚ) : Prop :=
  ∀ s, cv.1 s = (hist s).length
    ∧ cv.2 s = (hist s).sum / ((hist s).length : ℚ)

theorem mean_step (L : List ℚ) (r : ℚ) :
    L.sum / (L.length : ℚ) + (r - L.sum / (L.length : ℚ)) / ((L.length : ℚ) + 1)
      = (L.sum + r) / ((L.length : ℚ) + 1) := by
  rcases eq_or_ne L.length 0 with h | h
  · have hL : L = [] := List.length_eq_zero.mp h
    subst hL
    simp
  · have hl : (L.length : ℚ) ≠ 0 := Nat.cast_ne_zero.mpr h
    have hl1 : (L.length : ℚ) + 1 ≠ 0 := by positivity
    field_simp
    ring

theorem mc_step_tracks {σ : Type} [DecidableEq σ] (reward : ℚ)
    (cv : (σ → ℕ) × (σ → ℚ)) (hist : σ → List ℚ) (s0 : σ)
    (h : tracksHistory cv hist) :
    tracksHistory (mc_step reward cv s0)
      (fun t => if t = s0 then hist t ++ [reward] else hist t) := by
  intro s
  obtain ⟨hc0, hv0⟩ := h s0
  obtain ⟨hc, hv⟩ := h s
  by_cases hs : s = s0
  · subst hs
    refine ⟨?_, ?_⟩
    · simp [mc_step, hc]
    · have hL : (mc_step reward cv s).2 s
          = cv.2 s + (reward - cv.2 s) / ((cv.1 s + 1 : ℕ) : ℚ) := by
        simp [mc_step]
      rw [hL, hc, hv]
      push_cast
      rw [mean_step]
      simp
  · exact ⟨by simp [mc_step, hs, hc], by simp [mc_step, hs, hv]⟩

theorem player_end_game_tracks {σ : Type} [DecidableEq σ] (reward : ℚ)
    (buffer : List σ) :
    ∀ (cv : (σ → ℕ) × (σ → ℚ)) (hist : σ → List ℚ),
      tracksHistory cv hist →
      tracksHistory (player_end_game reward buffer cv)
        (fun t => hist t ++ List.replicate (buffer.count t) reward) := by
  induction buffer with
  | nil =>
      intro cv hist h s
      simpa using h s
  | cons hd tl ih =>
      intro cv hist h
      have h2 := mc_step_tracks reward cv hist hd h
      have h3 := ih (mc_step reward cv hd)
        (fun t => if t = hd then hist t ++ [reward] else hist t) h2
      intro s
      obtain ⟨hc, hv⟩ := h3 s
      have heq : (if s = hd then hist s ++ [reward] else hist s)
            ++ List.replicate (tl.count s) reward
          = hist s ++ List.replicate ((hd :: tl).count s) reward := by
        by_cases hs : s = hd
        · subst hs
          simp [List.count_cons, List.replicate_succ, List.append_assoc]
        · simp [hs, List.count_cons, Ne.symm hs]
      refine ⟨?_, ?_⟩
      · rw [show player_end_game reward (hd :: tl) cv
            = player_end_game reward tl (mc_step reward cv hd) from rfl, hc]
        exact congrArg List.length heq
      · rw [show player_end_game reward (hd :: tl) cv
            = player_end_game reward tl (mc_step reward cv hd) from rfl, hv]
        exact congrArg (fun L : List ℚ => L.sum / (L.length : ℚ)) heq

theorem run_episodes_tracks {σ : Type} [DecidableEq σ]
    (eps : List (List σ × ℚ)) :
    ∀ (cv : (σ → ℕ) × (σ → ℚ)) (hist : σ → List ℚ),
      tracksHistory cv hist →
      tracksHistory (run_episodes eps cv)
        (fun t => hist t ++ recordedRewards t eps) := by
  induction eps with
  | nil =>
      intro cv hist h s
      simpa [recordedRewards] using h s
  | cons e tl ih =>
      intro cv hist h
      have h2 := player_end_game_tracks e.2 e.1 cv hist h
      have h3 := ih (player_end_game e.2 e.1 cv)
        (fun t => hist t ++ List.replicate (e.1.count t) e.2) h2
      intro s
      obtain ⟨hc, hv⟩ := h3 s
      have heq : (hist s ++ List.replicate (e.1.count s) e.2)
            ++ recordedRewards s tl
          = hist s ++ recordedRewards s (e :: tl) := by
        simp [recordedRewards, List.append_assoc]
      refine ⟨?_, ?_⟩
      · rw [show run_episodes (e :: tl) cv
            = run_episodes tl (player_end_game e.2 e.1 cv) from rfl, hc]
        exact congrArg List.length heq
      · rw [show run_episodes (e :: tl) cv
            = run_episodes tl (player_end_game e.2 e.1 cv) from rfl, hv]
        exact congrArg (fun L : List ℚ => L.sum / (L.length : ℚ)) heq

/-- C9: starting from empty tables, the incremental update of
`Player.end_game` leaves each state's value equal to the arithmetic
mean of all rewards recorded for it; in particular after episodes that
all rewarded 1 at a visited state, that state's value is exactly 1. -/
theorem claim_mc_value_is_mean {σ : Type} [DecidableEq σ]
    (eps : List (List σ × ℚ)) (s : σ) :
    (run_episodes eps ((fun _ => 0), (fun _ => 0))).1 s
      = (recordedRewards s eps).length
    ∧ (run_episodes eps ((fun _ => 0), (fun _ => 0))).2 s
      = (recordedRewards s eps).sum / ((recordedRewards s eps).length : ℚ)
    ∧ (recordedRewards s eps ≠ [] →
        (∀ r ∈ recordedRewards s eps, r = 1) →
        (run_episodes eps ((fun _ => 0), (fun _ => 0))).2 s = 1) := by
  have h0 : tracksHistory (((fun _ => 0) : σ → ℕ), ((fun _ => 0) : σ → ℚ))
      (fun _ => ([] : List ℚ)) := by
    intro t
    exact ⟨rfl, by simp⟩
  obtain ⟨hc, hv⟩ := run_episodes_tracks eps
    (((fun _ => 0) : σ → ℕ), ((fun _ => 0) : σ → ℚ))
    (fun _ => ([] : List ℚ)) h0 s
  simp only [List.nil_append] at hc hv
  refine ⟨hc, hv, ?_⟩
  intro hne hall
  rw [hv]
  have hrep : recordedRewards s eps
      = List.replicate (recordedRewards s eps).length 1 :=
    List.eq_replicate_iff.mpr ⟨rfl, hall⟩
  rw [hrep]
  have hlen : ((recordedRewards s eps).length : ℚ) ≠ 0 := by
    have : (recordedRewards s eps).length ≠ 0 :=
      fun hz => hne (List.length_eq_zero.mp hz)
    exact_mod_cast this
  simp only [List.sum_replicate, List.length_replicate, nsmul_eq_mul, mul_one]
  exact div_self hlen

/-- C9 witness: two episodes visiting state 0, both rewarded 1, leave
the state's value at exactly 1. -/
theorem claim_mc_value_is_mean_witness :
    (run_episodes [([(0 : ℕ)], (1 : ℚ)), ([0], 1)]
        ((fun _ => 0), (fun _ => 0))).2 0 = 1 :=
  (claim_mc_value_is_mean [([(0 : ℕ)], (1 : ℚ)), ([0], 1)] 0).2.2
    (by decide) (by decide)

/-! ### Engine construction (`TicTacToe.__init__`) -/

/-- The identity of a `Player` as the constructor sees it: its `name`. -/
structure PPlayer where
  name : String
deriving DecidableEq

/-- The `while len(players) < 2` padding loop of `TicTacToe.__init__`:
append `Player(f"Player {len(players) + 1}")` until two players. -/
def padPlayers (ps : List PPlayer) : List PPlayer :=
  if h : ps.length < 2 then
    padPlayers (ps ++ [⟨"Player " ++ toString (ps.length + 1)⟩])
  else ps
termination_by 2 - ps.length
decreasing_by simp [List.length_append]; omega

/-- `TicTacToe.__init__(players)`: raises `ValueError` (`none`) when
more than two players are supplied; otherwise pads the roster to two
players, stores `(Player("Dummy"), *players)`, and `reset()` yields the
initial engine state. -/
def tictactoe_init (players : List PPlayer) : Option (List PPlayer × Game) :=
  if 2 < players.length then none
  else some (⟨"Dummy"⟩ :: padPlayers players, initialGame)

theorem padPlayers_stop (ps : List PPlayer) (h : ¬ ps.length < 2) :
    padPlayers ps = ps := by
  rw [padPlayers, dif_neg h]

theorem padPlayers_nil :
    padPlayers [] = [⟨"Player 1"⟩, ⟨"Player 2"⟩] := by
  rw [padPlayers, dif_pos (by simp)]
  rw [padPlayers, dif_pos (by simp)]
  rw [padPlayers_stop _ (by simp)]
  rfl

theorem padPlayers_one (p : PPlayer) :
    padPlayers [p] = [p, ⟨"Player 2"⟩] := by
  rw [padPlayers, dif_pos (by simp)]
  have hlen : [p].length + 1 = 2 := rfl
  rw [hlen, padPlayers_stop _ (by simp)]
  have hstr : ("Player " ++ toString 2 : String) = "Player 2" := by decide
  rw [hstr]
  simp

/-- C10: constructing a `TicTacToe` fails (ValueError) exactly when
more than two players are supplied; with zero or one supplied, the
roster is padded with freshly created default players, so a
successfully constructed engine always holds exactly two playing
agents, at indices 1 and 2, behind the dummy at index 0. -/
theorem claim_init_players (ps : List PPlayer) :
    (tictactoe_init ps = none ↔ 2 < ps.length)
    ∧ (∀ r, tictactoe_init ps = some r →
        r.1.length = 3 ∧ r.1.take 1 = [⟨"Dummy"⟩] ∧ r.2 = initialGame)
    ∧ (ps = [] → tictactoe_init ps
        = some ([⟨"Dummy"⟩, ⟨"Player 1"⟩, ⟨"Player 2"⟩], initialGame))
    ∧ (∀ p, ps = [p] → tictactoe_init ps
        = some ([⟨"Dummy"⟩, p, ⟨"Player 2"⟩], initialGame))
    ∧ (∀ p q, ps = [p, q] → tictactoe_init ps
        = some ([⟨"Dummy"⟩, p, q], initialGame)) := by
  refine ⟨?_, ?_, ?_, ?_, ?_⟩
  · unfold tictactoe_init
    by_cases h : 2 < ps.length
    · simp [h]
    · simp [h]
  · intro r hr
    unfold tictactoe_init at hr
    by_cases h : 2 < ps.length
    · rw [if_pos h] at hr; cases hr
    · rw [if_neg h] at hr
      have hr1 : r.1 = ⟨"Dummy"⟩ :: padPlayers ps := by
        have := congrArg Prod.fst (Option.some.inj hr)
        exact this.symm
      have hr2 : r.2 = initialGame := by
        have := congrArg Prod.snd (Option.some.inj hr)
        exact this.symm
      have hlen : (padPlayers ps).length = 2 := by
        rcases hps : ps with _ | ⟨p, _ | ⟨q, _ | _⟩⟩
        · rw [padPlayers_nil]; rfl
        · rw [padPlayers_one]; rfl
        · rw [padPlayers_stop _ (by simp)]; rfl
        · exfalso; apply h; rw [hps]; simp
      refine ⟨?_, ?_, hr2⟩
      · rw [hr1]; simp [hlen]
      · rw [hr1]; rfl
  · intro hps
    subst hps
    unfold tictactoe_init
    rw [if_neg (by simp), padPlayers_nil]
  · intro p hps
    subst hps
    unfold tictactoe_init
    rw [if_neg (by simp), padPlayers_one]
  · intro p q hps
    subst hps
    unfold tictactoe_init
    rw [if_neg (by simp), padPlayers_stop _ (by simp)]

/-- C10 witness: a constructor call with no players succeeds and pads
with the two default players. -/
theorem claim_init_players_witness :
    tictactoe_init []
      = some ([⟨"Dummy"⟩, ⟨"Player 1"⟩, ⟨"Player 2"⟩], initialGame) :=
  (claim_init_players []).2.2.1 rfl
